import Mathlib

/-
  Verification development for the es1d particle core of zpic.

  The repository ships the public header src/es1d/particles.h, which fixes the
  data model (t_part, t_density, t_species), the diagnostic tag macros and the
  signatures of the particle operations.  The implementations behind those
  signatures (spec_new, spec_advance, spec_deposit_charge, spec_deposit_pha,
  the density evaluator) are not part of the sources available here, so they
  are modelled from the specification text; the data model and the macros are
  embedded directly from the header.  C machine floats and doubles are
  embedded as exact rationals, C int and the cell index as integers.
-/

/-- Particle record, embedded from src/es1d/particles.h (t_part): cell index
ix, sub-cell position offset x and velocity vx. -/
structure t_part where
  ix : Int
  x : ℚ
  vx : ℚ
  deriving DecidableEq, Repr

/-- Density profile kinds, embedded from src/es1d/particles.h
(enum density_type). -/
inductive density_type where
  | UNIFORM
  | STEP
  | SLAB
  | RAMP
  | CUSTOM
  deriving DecidableEq, Repr

/-- Density profile descriptor, embedded from src/es1d/particles.h
(t_density).  The C pair of a custom function pointer and its untyped
custom_data context is embedded as one optional closure. -/
structure t_density where
  n : ℚ
  type : density_type
  start : ℚ
  end_ : ℚ
  ramp : ℚ × ℚ
  custom : Option (ℚ → ℚ)
  total_np_inj : ℕ
  custom_q_inj : ℚ

/-- Species record, embedded from src/es1d/particles.h (t_species).  The C
particle buffer (part, np, np_max) is embedded as a Lean list whose length
plays the role of np; the capacity field np_max is an allocation detail with
no observable effect on the embedded operations.  The per-particle charge q
is, as in the header, a single species-level field: every particle of the
species carries the same charge weight. -/
structure t_species where
  name : String
  part : List t_part
  m_q : ℚ
  q : ℚ
  energy : ℚ
  ppc : ℕ
  density : t_density
  vfl : ℚ
  vth : ℚ
  nx : ℕ
  dx : ℚ
  box : ℚ
  dt : ℚ
  iter : ℕ

/-- Modelled from the spec: the density evaluator behind t_density (the
implementation file of the es1d particle module is not among the sources,
only its header).  Spec 4.1: uniform returns the reference density
everywhere; step returns it for x at or beyond start; slab returns it on
[start, end); ramp returns 0 outside [start, end] and linearly interpolates
between ramp[0] at start and ramp[1] at end inside, scaled by n; custom
returns n times the evaluator value and fails with a configuration error when
no evaluator is set. -/
def density_at (d : t_density) (x : ℚ) : Except String ℚ :=
  match d.type with
  | density_type.UNIFORM => Except.ok d.n
  | density_type.STEP => Except.ok (if d.start ≤ x then d.n else 0)
  | density_type.SLAB => Except.ok (if d.start ≤ x ∧ x < d.end_ then d.n else 0)
  | density_type.RAMP =>
      Except.ok (if x < d.start ∨ d.end_ < x then 0
        else d.n * (d.ramp.1 + (d.ramp.2 - d.ramp.1) * (x - d.start) / (d.end_ - d.start)))
  | density_type.CUSTOM =>
      match d.custom with
      | none => Except.error ("density_at: custom density kind with no evaluator")
      | some fn => Except.ok (d.n * fn x)

/-- Modelled from the spec (4.2): the particles injected into one cell, at
evenly spaced sub-cell offsets.  The random thermal spread of spec 4.2 is not
shallowly embeddable; its zero-mean draw is embedded as the drift velocity
itself, which no claim under verification depends on. -/
def cell_particles (i : ℕ) (npc : ℕ) (vfl : ℚ) : List t_part :=
  (List.range npc).map
    (fun (j : ℕ) => { ix := (i : ℤ), x := ((j : ℚ) + 1 / 2) / (npc : ℚ), vx := vfl })

/-- Modelled from the spec (4.2): injection into a single cell.  The uniform
profile places exactly ppc particles per cell; for the other profiles the
count per cell is scaled by the local density relative to the reference, with
the fractional leftover carried to the next cell to avoid systematic bias. -/
def inject_cell (d : t_density) (ppc : ℕ) (dx vfl : ℚ) (i : ℕ) (leftover : ℚ) :
    List t_part × ℚ :=
  match d.type with
  | density_type.UNIFORM => (cell_particles i ppc vfl, leftover)
  | _ =>
    let nd := (density_at d (((i : ℚ) + 1 / 2) * dx)).toOption.getD 0
    let target := (ppc : ℚ) * nd / d.n + leftover
    (cell_particles i (⌊target⌋.toNat) vfl, target - ((⌊target⌋.toNat : ℤ) : ℚ))

/-- Modelled from the spec (4.2): injection over a list of cells, threading
the fractional leftover accumulator. -/
def inject_cells (d : t_density) (ppc : ℕ) (dx vfl : ℚ) :
    List ℕ → ℚ → List t_part × ℚ
  | [], leftover => ([], leftover)
  | i :: rest, leftover =>
    let c := inject_cell d ppc dx vfl i leftover
    let r := inject_cells d ppc dx vfl rest c.2
    (c.1 ++ r.1, r.2)

/-- Modelled from the spec: spec_new (declared in src/es1d/particles.h; the
implementation is not among the sources).  Spec 4.2 and 7: malformed density
parameters — a custom kind with no evaluator, or start beyond end where the
ordering is required — are configuration errors reported at construction
time; construction aborts and no partial species is produced (embedded as an
Except value, surfacing the error to the immediate caller).  Otherwise the
cell size is box / nx, particles are injected cell by cell, and the fixed
per-particle charge is derived from the reference density so that all
particles carry equal weight: q = n * dx / ppc. -/
def spec_new (name : String) (m_q : ℚ) (ppc : ℕ) (vfl vth : ℚ)
    (nx : ℕ) (box : ℚ) (dt : ℚ) (d : t_density) : Except String t_species :=
  if d.type = density_type.CUSTOM ∧ d.custom.isNone then
    Except.error ("spec_new: custom density kind with no evaluator")
  else if (d.type = density_type.RAMP ∨ d.type = density_type.SLAB) ∧ d.end_ < d.start then
    Except.error ("spec_new: density start must not exceed end")
  else
    let dx := box / (nx : ℚ)
    let parts := (inject_cells d ppc dx vfl (List.range nx) 0).1
    Except.ok
      { name := name
        part := parts
        m_q := m_q
        q := d.n * dx / (ppc : ℚ)
        energy := 0
        ppc := ppc
        density := { d with total_np_inj := d.total_np_inj + parts.length }
        vfl := vfl
        vth := vth
        nx := nx
        dx := dx
        box := box
        dt := dt
        iter := 0 }

/-- Modelled from the spec (4.3 step 1): linear interpolation of the grid
field at the particle position, weights (1 - x, x) on the two bracketing
nodes, the upper node wrapping periodically. -/
def interp_field (f : List ℚ) (nx : ℕ) (p : t_part) : ℚ :=
  f.getD p.ix.toNat 0 * (1 - p.x) + f.getD ((p.ix.toNat + 1) % nx) 0 * p.x

/-- Modelled from the spec (4.3 step 2): the updated velocity,
v + (charge over mass) * field * dt, with m_q the mass over charge ratio. -/
def adv_v (m_q dt : ℚ) (nx : ℕ) (f : List ℚ) (p : t_part) : ℚ :=
  p.vx + dt / m_q * interp_field f nx p

/-- Modelled from the spec (4.3 step 3): the un-renormalized new offset,
x + v_new * dt / dx. -/
def adv_xt (m_q dx dt : ℚ) (nx : ℕ) (f : List ℚ) (p : t_part) : ℚ :=
  p.x + adv_v m_q dt nx f p * dt / dx

/-- Modelled from the spec (4.3 steps 1-4): one particle push.  The
renormalization carry/borrow loop of step 3 moves the integer part of the
new offset into the cell index (so the offset becomes its fractional part),
and step 4 wraps the cell index periodically modulo nx. -/
def advance_part (m_q dx dt : ℚ) (nx : ℕ) (f : List ℚ) (p : t_part) : t_part :=
  { ix := (p.ix + ⌊adv_xt m_q dx dt nx f p⌋) % (nx : ℤ)
    x := adv_xt m_q dx dt nx f p - ((⌊adv_xt m_q dx dt nx f p⌋ : ℤ) : ℚ)
    vx := adv_v m_q dt nx f p }

/-- Modelled from the spec: spec_advance (declared in src/es1d/particles.h;
the implementation is not among the sources).  Spec 4.3: every particle is
pushed independently through the leapfrog step with periodic boundaries, the
species kinetic energy is overwritten with this step's total
sum of 0.5 * q / m_q * v_new^2, and the iteration counter increments.  The
deposition of the post-update charge into the accumulator (4.3 last step) is
the separately embedded spec_deposit_charge applied to the advanced
species. -/
def spec_advance (s : t_species) (f : List ℚ) : t_species :=
  let newpart := s.part.map (advance_part s.m_q s.dx s.dt s.nx f)
  { s with
    part := newpart
    energy := (newpart.map (fun p => 1 / 2 * s.q / s.m_q * p.vx ^ 2)).sum
    iter := s.iter + 1 }

/-- Iterated advance: n successive spec_advance calls against the same field
buffer. -/
def advance_iter (s : t_species) (f : List ℚ) : ℕ → t_species
  | 0 => s
  | n + 1 => spec_advance (advance_iter s f n) f

/-- Modelled from the spec (4.4): scatter of one particle's charge onto the
grid nodes ix and ix + 1 with linear weights (1 - x, x), the upper node
wrapping to 0 under periodic boundaries. -/
def deposit_one (nx : ℕ) (q : ℚ) (buf : List ℚ) (p : t_part) : List ℚ :=
  let i := p.ix.toNat
  let i1 := (p.ix.toNat + 1) % nx
  let b1 := buf.set i (buf.getD i 0 + q * (1 - p.x))
  b1.set i1 (b1.getD i1 0 + q * p.x)

/-- Modelled from the spec: spec_deposit_charge (declared in
src/es1d/particles.h; the implementation is not among the sources).  Spec
4.4: read-only over the species, write-accumulate into the caller's buffer
of nx grid nodes, first-order linear weighting per particle. -/
def spec_deposit_charge (s : t_species) (buf : List ℚ) : List ℚ :=
  s.part.foldl (deposit_one s.nx s.q) buf

/-- Report tag constant, embedded from src/es1d/particles.h. -/
def CHARGE : ℕ := 0x1000

/-- Report tag constant, embedded from src/es1d/particles.h. -/
def PHA : ℕ := 0x2000

/-- Report tag constant, embedded from src/es1d/particles.h. -/
def PARTICLES : ℕ := 0x3000

/-- Axis code, embedded from src/es1d/particles.h. -/
def X1 : ℕ := 0x0001

/-- Axis code, embedded from src/es1d/particles.h. -/
def V1 : ℕ := 0x0004

/-- Phase-space report tag, embedded from src/es1d/particles.h:
PHASESPACE(a,b) is (a) + (b)*16 + PHA. -/
def PHASESPACE (a b : ℕ) : ℕ := a + b * 16 + PHA

/-- Modelled from the spec (4.5): nearest-bin assignment of a value into
nbins bins over [lo, hi); none when the value falls outside the binned
range. -/
def pha_bin (nbins : ℕ) (lo hi v : ℚ) : Option ℕ :=
  let i := ⌊(v - lo) / (hi - lo) * (nbins : ℚ)⌋
  if 0 ≤ i ∧ i < (nbins : ℤ) then some i.toNat else none

/-- Modelled from the spec (4.5): the physical quantity selected by an axis
code — position (ix + x) * dx for X1, velocity for V1. -/
def pha_value (dx : ℚ) (code : ℕ) (p : t_part) : ℚ :=
  if code = X1 then ((p.ix : ℚ) + p.x) * dx else p.vx

/-- Modelled from the spec (4.5): one particle's contribution to the 2-D
phase-space histogram.  A particle whose position or velocity falls outside
the bin ranges is silently skipped. -/
def deposit_pha_one (dx q : ℚ) (code0 code1 n0 n1 : ℕ) (r0 r1 : ℚ × ℚ)
    (buf : List ℚ) (p : t_part) : List ℚ :=
  match pha_bin n0 r0.1 r0.2 (pha_value dx code0 p),
        pha_bin n1 r1.1 r1.2 (pha_value dx code1 p) with
  | some i, some j => buf.set (j * n0 + i) (buf.getD (j * n0 + i) 0 + q)
  | _, _ => buf

/-- Modelled from the spec: spec_deposit_pha (declared in
src/es1d/particles.h; the implementation is not among the sources).  Spec
4.5: the report tag encodes the two axis codes, each particle is binned into
the caller's histogram buffer, out-of-range particles are silently dropped,
and the species is never mutated — the call is embedded as returning the
species state it leaves behind together with the filled buffer. -/
def spec_deposit_pha (s : t_species) (rep_type : ℕ) (n0 n1 : ℕ)
    (r0 r1 : ℚ × ℚ) (buf : List ℚ) : t_species × List ℚ :=
  let code0 := (rep_type - PHA) % 16
  let code1 := (rep_type - PHA) / 16 % 16
  (s, s.part.foldl (deposit_pha_one s.dx s.q code0 code1 n0 n1 r0 r1) buf)

/-- Concrete ramp density with degenerate bounds (start equal to end),
used as a probe input. -/
def dRamp0 : t_density :=
  { n := 1
    type := density_type.RAMP
    start := 0
    end_ := 0
    ramp := (0, 1)
    custom := none
    total_np_inj := 0
    custom_q_inj := 0 }

/-- Concrete uniform density, used as a probe input. -/
def dUni : t_density :=
  { n := 1
    type := density_type.UNIFORM
    start := 0
    end_ := 0
    ramp := (0, 0)
    custom := none
    total_np_inj := 0
    custom_q_inj := 0 }

/-- Concrete custom density with no evaluator set, used as a probe input. -/
def dCnone : t_density :=
  { n := 1
    type := density_type.CUSTOM
    start := 0
    end_ := 1
    ramp := (0, 0)
    custom := none
    total_np_inj := 0
    custom_q_inj := 0 }

/-- Concrete two-cell species holding an interior particle and a particle in
the last cell (whose upper deposition node wraps to 0), probe input for
charge deposition. -/
def SDEP : t_species :=
  { name := "probe"
    part := [⟨0, 1 / 4, 0⟩, ⟨1, 3 / 4, 0⟩]
    m_q := 1
    q := 1 / 2
    energy := 0
    ppc := 1
    density := dUni
    vfl := 0
    vth := 0
    nx := 2
    dx := 1
    box := 2
    dt := 1 / 10
    iter := 0 }

/-- Concrete two-cell species with one particle, probe input for the
advance invariant. -/
def SADV : t_species :=
  { name := "probe"
    part := [⟨0, 1 / 2, 3 / 2⟩]
    m_q := 1
    q := 1
    energy := 0
    ppc := 1
    density := dUni
    vfl := 0
    vth := 0
    nx := 2
    dx := 1
    box := 2
    dt := 1
    iter := 0 }

/-- Concrete nonzero field buffer matching SADV. -/
def FADV : List ℚ := [1 / 2, 0]

/-- The particle produced by one advance of SADV against FADV. -/
def PADV : t_part := ⟨0, 1 / 4, 7 / 4⟩

/-- Concrete two-cell species whose single particle crosses the upper domain
boundary in one step, probe input for the zero-field claims. -/
def SZ : t_species :=
  { name := "probe"
    part := [⟨1, 1 / 2, 1⟩]
    m_q := 1
    q := 1
    energy := 0
    ppc := 1
    density := dUni
    vfl := 0
    vth := 0
    nx := 2
    dx := 1
    box := 2
    dt := 1
    iter := 0 }

/-- Concrete all-zero field buffer matching SZ. -/
def FZ : List ℚ := [0, 0]

/-- Concrete particle whose velocity lies outside the histogram range, probe
input for the phase-space diagnostic. -/
def p8 : t_part := ⟨0, 0, 100⟩

/-- Concrete in-range particle, probe input for the phase-space
diagnostic. -/
def q8 : t_part := ⟨0, 1 / 2, 1 / 2⟩

/-- Concrete species for the phase-space diagnostic probe. -/
def S8 : t_species :=
  { name := "probe"
    part := [q8]
    m_q := 1
    q := 1
    energy := 0
    ppc := 1
    density := dUni
    vfl := 0
    vth := 0
    nx := 2
    dx := 1
    box := 2
    dt := 1
    iter := 0 }

/-- C6 counterexample: the degenerate ramp configuration start = end is
admitted by the claim (start at most end), yet the evaluator cannot return
ramp[1] * n at x = end there: at the single point of the support the linear
interpolation yields the initial bound, and the claimed final value ramp[1]
* n = 1 is not what is returned (the returned value is 0). -/
theorem density_at_ramp_degenerate :
    dRamp0.start ≤ dRamp0.end_ ∧
    density_at dRamp0 dRamp0.end_ = Except.ok 0 ∧
    dRamp0.ramp.2 * dRamp0.n ≠ 0 := by
  refine ⟨by norm_num [dRamp0], ?_, by norm_num [dRamp0]⟩
  norm_num [density_at, dRamp0]

/-- C6 (amended): for every ramp profile with start strictly below end, the
density evaluator returns exactly ramp[0] * n at x = start and exactly
ramp[1] * n at x = end, and returns 0 for x outside the interval. -/
theorem density_at_ramp_bounds (d : t_density) (ht : d.type = density_type.RAMP)
    (hlt : d.start < d.end_) :
    density_at d d.start = Except.ok (d.ramp.1 * d.n) ∧
    density_at d d.end_ = Except.ok (d.ramp.2 * d.n) ∧
    ∀ x : ℚ, x < d.start ∨ d.end_ < x → density_at d x = Except.ok 0 := by
  have he : d.end_ - d.start ≠ 0 := sub_ne_zero.mpr hlt.ne'
  refine ⟨?_, ?_, ?_⟩
  · simp only [density_at, ht]
    rw [if_neg]
    · congr 1
      rw [sub_self]
      ring
    · push_neg
      exact ⟨le_refl _, hlt.le⟩
  · simp only [density_at, ht]
    rw [if_neg]
    · congr 1
      rw [mul_div_assoc, div_self he]
      ring
    · push_neg
      exact ⟨hlt.le, le_refl _⟩
  · intro x hx
    simp only [density_at, ht]
    rw [if_pos hx]

/-- C6 witness: the amended ramp boundary property evaluated on a concrete
ramp profile over [0, 2] from density 1 to density 3. -/
theorem density_at_ramp_bounds_w :
    density_at
        { n := 2, type := density_type.RAMP, start := 0, end_ := 2, ramp := (1, 3),
          custom := none, total_np_inj := 0, custom_q_inj := 0 } 0 = Except.ok (1 * 2) ∧
    density_at
        { n := 2, type := density_type.RAMP, start := 0, end_ := 2, ramp := (1, 3),
          custom := none, total_np_inj := 0, custom_q_inj := 0 } 2 = Except.ok (3 * 2) ∧
    ∀ x : ℚ, x < 0 ∨ 2 < x →
      density_at
        { n := 2, type := density_type.RAMP, start := 0, end_ := 2, ramp := (1, 3),
          custom := none, total_np_inj := 0, custom_q_inj := 0 } x = Except.ok 0 :=
  density_at_ramp_bounds _ rfl (by norm_num)

/-- C7: constructing a species whose density profile has the custom kind but
no evaluator set reports a configuration error to the immediate caller and
aborts; no species value is produced (the result is an error, never a
partially constructed ok value). -/
theorem spec_new_custom_missing (name : String) (m_q : ℚ) (ppc : ℕ) (vfl vth : ℚ)
    (nx : ℕ) (box dt : ℚ) (d : t_density) (ht : d.type = density_type.CUSTOM)
    (hc : d.custom = none) :
    spec_new name m_q ppc vfl vth nx box dt d =
      Except.error ("spec_new: custom density kind with no evaluator") := by
  simp [spec_new, ht, hc]

/-- C7 witness: species construction against the concrete evaluator-less
custom profile returns the configuration error. -/
theorem spec_new_custom_missing_w :
    spec_new ("electrons") 1 4 0 0 8 8 1 dCnone =
      Except.error ("spec_new: custom density kind with no evaluator") :=
  spec_new_custom_missing _ _ _ _ _ _ _ _ _ rfl rfl

/-- C9: for axis codes a and b below 16, the report tag PHASESPACE(a, b)
equals a + 16 * b + 0x2000, the two axis selections occupy disjoint bit
fields of the tag (each code is recovered by the mod-16 projections), and in
particular PHASESPACE(X1, V1) = 0x2041. -/
theorem PHASESPACE_bitfields (a b : ℕ) (ha : a < 16) (hb : b < 16) :
    PHASESPACE a b = a + 16 * b + 0x2000 ∧
    PHASESPACE a b % 16 = a ∧
    PHASESPACE a b / 16 % 16 = b ∧
    PHASESPACE X1 V1 = 0x2041 := by
  refine ⟨?_, ?_, ?_, ?_⟩ <;> simp only [PHASESPACE, PHA, X1, V1] <;> omega

/-- C9 witness: the bit-field property of the report tag instantiated at the
axis codes X1 and V1. -/
theorem PHASESPACE_bitfields_w :
    PHASESPACE X1 V1 = X1 + 16 * V1 + 0x2000 ∧
    PHASESPACE X1 V1 % 16 = X1 ∧
    PHASESPACE X1 V1 / 16 % 16 = V1 ∧
    PHASESPACE X1 V1 = 0x2041 :=
  PHASESPACE_bitfields X1 V1 (by decide) (by decide)

/-- Injection with the uniform profile places exactly ppc particles in every
cell, for any leftover accumulator value. -/
theorem inject_cells_uniform_length (d : t_density) (hd : d.type = density_type.UNIFORM)
    (ppc : ℕ) (dx vfl : ℚ) :
    ∀ (cells : List ℕ) (leftover : ℚ),
      (inject_cells d ppc dx vfl cells leftover).1.length = cells.length * ppc := by
  intro cells
  induction cells with
  | nil => intro leftover; simp [inject_cells]
  | cons i rest ih =>
    intro leftover
    simp only [inject_cells, inject_cell, hd, List.length_append, List.length_cons, ih]
    simp [cell_particles]
    ring

/-- C4: constructing a species with the uniform density profile over nx cells
and ppc particles per cell succeeds and yields exactly nx * ppc particles,
with the single species-level per-particle charge weight q = n * dx / ppc
carried by every particle. -/
theorem spec_new_uniform_roundtrip (name : String) (m_q : ℚ) (ppc : ℕ) (vfl vth : ℚ)
    (nx : ℕ) (box dt : ℚ) (d : t_density) (hd : d.type = density_type.UNIFORM) :
    (spec_new name m_q ppc vfl vth nx box dt d).map (fun s => (s.part.length, s.q)) =
      Except.ok (nx * ppc, d.n * (box / (nx : ℚ)) / (ppc : ℚ)) := by
  simp [spec_new, hd, Except.map, inject_cells_uniform_length d hd]

/-- C4 witness: the uniform round trip evaluated at 4 cells and 3 particles
per cell. -/
theorem spec_new_uniform_roundtrip_w :
    (spec_new ("electrons") 1 3 0 0 4 4 (1 / 10) dUni).map (fun s => (s.part.length, s.q)) =
      Except.ok (4 * 3, dUni.n * ((4 : ℚ) / ((4 : ℕ) : ℚ)) / ((3 : ℕ) : ℚ)) :=
  spec_new_uniform_roundtrip ("electrons") 1 3 0 0 4 4 (1 / 10) dUni rfl

/-- Accumulating a onto the entry at a valid index adds a to the list
total. -/
theorem getD_set_sum (l : List ℚ) (i : ℕ) (a : ℚ) (h : i < l.length) :
    (l.set i (l.getD i 0 + a)).sum = l.sum + a := by
  induction l generalizing i with
  | nil => simp at h
  | cons x xs ih =>
    cases i with
    | zero => simp [List.getD]; ring
    | succ n =>
      have hn : n < xs.length := by simpa using h
      simp only [List.set, List.getD_cons_succ, List.sum_cons, ih n hn]
      ring

/-- One particle scatter adds exactly q to the buffer total and preserves the
buffer length. -/
theorem deposit_one_sum (nx : ℕ) (q : ℚ) (buf : List ℚ) (p : t_part)
    (hlen : buf.length = nx) (hix : p.ix.toNat < nx) (hnx : 0 < nx) :
    (deposit_one nx q buf p).sum = buf.sum + q ∧ (deposit_one nx q buf p).length = nx := by
  have h1 : p.ix.toNat < buf.length := by omega
  have h2 : (p.ix.toNat + 1) % nx < buf.length := by
    rw [hlen]; exact Nat.mod_lt _ hnx
  have hb1len : (buf.set p.ix.toNat (buf.getD p.ix.toNat 0 + q * (1 - p.x))).length
      = buf.length := List.length_set buf _ _
  constructor
  · show ((buf.set p.ix.toNat (buf.getD p.ix.toNat 0 + q * (1 - p.x))).set
        ((p.ix.toNat + 1) % nx) _).sum = buf.sum + q
    rw [getD_set_sum _ _ _ (by rw [hb1len]; exact h2),
      getD_set_sum _ _ _ h1]
    ring
  · show ((buf.set p.ix.toNat _).set ((p.ix.toNat + 1) % nx) _).length = nx
    simp [hlen]

/-- Folding the scatter over a particle list adds q per particle to the
buffer total. -/
theorem deposit_fold_sum (nx : ℕ) (q : ℚ) (hnx : 0 < nx) :
    ∀ (parts : List t_part) (buf : List ℚ), buf.length = nx →
      (∀ p ∈ parts, p.ix.toNat < nx) →
      (parts.foldl (deposit_one nx q) buf).sum = buf.sum + (parts.length : ℚ) * q := by
  intro parts
  induction parts with
  | nil => intro buf hlen hmem; simp
  | cons p rest ih =>
    intro buf hlen hmem
    have hp : p.ix.toNat < nx := hmem p (List.mem_cons_self p rest)
    obtain ⟨hsum, hlen2⟩ := deposit_one_sum nx q buf p hlen hp hnx
    simp only [List.foldl_cons, List.length_cons]
    rw [ih _ hlen2 (fun r hr => hmem r (List.mem_cons_of_mem p hr)), hsum]
    push_cast
    ring

/-- C1: the charge buffer written by spec_deposit_charge over a zeroed
buffer sums, over all grid nodes, to np * q — the linear two-node scatter
conserves total deposited charge, for interior particles and for particles
in the last cell whose upper node wraps periodically. -/
theorem spec_deposit_charge_total (s : t_species) (hnx : 0 < s.nx)
    (hix : ∀ p ∈ s.part, 0 ≤ p.ix ∧ p.ix < (s.nx : ℤ)) :
    (spec_deposit_charge s (List.replicate s.nx 0)).sum = (s.part.length : ℚ) * s.q := by
  have h := deposit_fold_sum s.nx s.q hnx s.part (List.replicate s.nx 0)
    (by simp) (fun p hp => by have := hix p hp; omega)
  simpa [spec_deposit_charge] using h

/-- C1 witness: charge conservation evaluated on the concrete two-particle
species SDEP (one interior particle, one wrapping particle). -/
theorem spec_deposit_charge_total_w :
    (spec_deposit_charge SDEP (List.replicate SDEP.nx 0)).sum = (SDEP.part.length : ℚ) * SDEP.q :=
  spec_deposit_charge_total SDEP (by norm_num [SDEP])
    (by
      intro p hp
      simp only [SDEP, List.mem_cons, List.not_mem_nil, or_false] at hp
      rcases hp with h | h <;> subst h <;> norm_num [SDEP])

/-- One advance call rewrites only the particle buffer, the energy snapshot
and the iteration counter; the physical and grid parameters are
untouched. -/
theorem spec_advance_params (s : t_species) (f : List ℚ) :
    (spec_advance s f).m_q = s.m_q ∧ (spec_advance s f).dx = s.dx ∧
    (spec_advance s f).dt = s.dt ∧ (spec_advance s f).nx = s.nx ∧
    (spec_advance s f).q = s.q := by
  exact ⟨rfl, rfl, rfl, rfl, rfl⟩

/-- Iterated advance keeps the physical and grid parameters of the
species. -/
theorem advance_iter_params (s : t_species) (f : List ℚ) (n : ℕ) :
    (advance_iter s f n).m_q = s.m_q ∧ (advance_iter s f n).dx = s.dx ∧
    (advance_iter s f n).dt = s.dt ∧ (advance_iter s f n).nx = s.nx ∧
    (advance_iter s f n).q = s.q := by
  induction n with
  | zero => exact ⟨rfl, rfl, rfl, rfl, rfl⟩
  | succ n ih =>
    obtain ⟨h1, h2, h3, h4, h5⟩ := ih
    exact ⟨h1, h2, h3, h4, h5⟩

/-- The push renormalizes the offset into [0, 1) and wraps the cell index
into [0, nx). -/
theorem advance_part_bounds (m_q dx dt : ℚ) (nx : ℕ) (hnx : 0 < nx)
    (f : List ℚ) (p : t_part) :
    0 ≤ (advance_part m_q dx dt nx f p).x ∧ (advance_part m_q dx dt nx f p).x < 1 ∧
    0 ≤ (advance_part m_q dx dt nx f p).ix ∧ (advance_part m_q dx dt nx f p).ix < (nx : ℤ) := by
  have hz : (nx : ℤ) ≠ 0 := by exact_mod_cast hnx.ne'
  refine ⟨?_, ?_, Int.emod_nonneg _ hz, Int.emod_lt_of_pos _ (by exact_mod_cast hnx)⟩
  · show 0 ≤ adv_xt m_q dx dt nx f p - ((⌊adv_xt m_q dx dt nx f p⌋ : ℤ) : ℚ)
    have := Int.floor_le (adv_xt m_q dx dt nx f p)
    linarith
  · show adv_xt m_q dx dt nx f p - ((⌊adv_xt m_q dx dt nx f p⌋ : ℤ) : ℚ) < 1
    have := Int.lt_floor_add_one (adv_xt m_q dx dt nx f p)
    linarith

/-- C2: under periodic boundaries, after any positive number of advance
calls every particle in the buffer has its sub-cell offset in [0, 1) and
its cell index in [0, nx). -/
theorem spec_advance_position_invariant (s : t_species) (f : List ℚ) (n : ℕ)
    (hnx : 0 < s.nx) (hn : 1 ≤ n) :
    ∀ p ∈ (advance_iter s f n).part,
      0 ≤ p.x ∧ p.x < 1 ∧ 0 ≤ p.ix ∧ p.ix < (s.nx : ℤ) := by
  obtain ⟨m, rfl⟩ : ∃ m, n = m + 1 := ⟨n - 1, by omega⟩
  intro p hp
  have hparams := advance_iter_params s f m
  have hnx' : 0 < (advance_iter s f m).nx := by
    rw [hparams.2.2.2.1]; exact hnx
  simp only [advance_iter, spec_advance, List.mem_map] at hp
  obtain ⟨p0, hp0, rfl⟩ := hp
  have hb := advance_part_bounds (advance_iter s f m).m_q (advance_iter s f m).dx
    (advance_iter s f m).dt (advance_iter s f m).nx hnx' f p0
  refine ⟨hb.1, hb.2.1, hb.2.2.1, ?_⟩
  rw [← hparams.2.2.2.1]
  exact hb.2.2.2

/-- C2 witness: the invariant read off the particle obtained from one
advance of the concrete species SADV against the field FADV. -/
theorem spec_advance_position_invariant_w :
    0 ≤ PADV.x ∧ PADV.x < 1 ∧ 0 ≤ PADV.ix ∧ PADV.ix < (SADV.nx : ℤ) := by
  have hm : PADV ∈ (advance_iter SADV FADV 1).part := by
    have hval : (advance_iter SADV FADV 1).part = [PADV] := by
      norm_num [advance_iter, spec_advance, advance_part, adv_xt, adv_v, interp_field,
        SADV, FADV, PADV, List.getD]
    rw [hval]
    exact List.mem_singleton.mpr rfl
  exact spec_advance_position_invariant SADV FADV 1 (by norm_num [SADV]) (le_refl 1) PADV hm

/-- C5: after each advance call the species energy field equals the sum over
the post-update particle buffer of half q over m_q times the updated
velocity squared, and the previous energy value is overwritten — the stored
total does not depend on the energy the species carried before the call. -/
theorem spec_advance_energy_snapshot (s : t_species) (f : List ℚ) :
    (spec_advance s f).energy =
      ((spec_advance s f).part.map (fun p => 1 / 2 * s.q / s.m_q * p.vx ^ 2)).sum ∧
    ∀ e : ℚ, (spec_advance { s with energy := e } f).energy = (spec_advance s f).energy := by
  exact ⟨rfl, fun e => rfl⟩

/-- C10: under the periodic-boundary pusher, any number of advance calls
leaves the particle count of the species unchanged — no particle is removed
or injected. -/
theorem spec_advance_preserves_np (s : t_species) (f : List ℚ) (n : ℕ) :
    (advance_iter s f n).part.length = s.part.length := by
  induction n with
  | zero => rfl
  | succ n ih =>
    show ((advance_iter s f n).part.map _).length = s.part.length
    rw [List.length_map, ih]

/-- Reading any index of an all-zero field buffer yields zero. -/
theorem getD_zero_of_all_zero (f : List ℚ) (hf : ∀ y ∈ f, y = 0) :
    ∀ i : ℕ, f.getD i 0 = 0 := by
  induction f with
  | nil => intro i; simp [List.getD]
  | cons a l ih =>
    intro i
    cases i with
    | zero => simpa using hf a (List.mem_cons_self a l)
    | succ n =>
      simp only [List.getD_cons_succ]
      exact ih (fun y hy => hf y (List.mem_cons_of_mem a hy)) n

/-- An all-zero field buffer interpolates to zero at every particle. -/
theorem interp_field_zero (f : List ℚ) (nx : ℕ) (hf : ∀ y ∈ f, y = 0) (p : t_part) :
    interp_field f nx p = 0 := by
  rw [interp_field, getD_zero_of_all_zero f hf, getD_zero_of_all_zero f hf]
  ring

/-- With an all-zero field buffer the velocity update is the identity. -/
theorem adv_v_zero_field (m_q dt : ℚ) (nx : ℕ) (f : List ℚ) (hf : ∀ y ∈ f, y = 0)
    (p : t_part) : adv_v m_q dt nx f p = p.vx := by
  rw [adv_v, interp_field_zero f nx hf]
  ring

/-- C3 counterexample: against the all-zero field FZ, one advance of the
concrete species SZ (time step 1, cell size 1, two cells) moves its particle
from physical position 3/2 to 1/2 by the periodic wrap, so the new position
list differs from the old positions incremented by vx * dt — the literal
per-step increment claim fails at a boundary crossing. -/
theorem spec_advance_zero_field_cex :
    (∀ y ∈ FZ, y = 0) ∧
    (spec_advance SZ FZ).part.map (fun p => ((p.ix : ℚ) + p.x) * SZ.dx) ≠
      SZ.part.map (fun p => ((p.ix : ℚ) + p.x) * SZ.dx + p.vx * SZ.dt) := by
  constructor
  · intro y hy
    simp only [FZ, List.mem_cons, List.not_mem_nil, or_false] at hy
    rcases hy with h | h <;> exact h
  · norm_num [spec_advance, advance_part, adv_xt, adv_v, interp_field, SZ, FZ, List.getD]

/-- C3 (amended): with an all-zero field buffer every particle velocity is
unchanged across any number of advance calls, and each single push advances
the physical position by exactly vx * dt up to an integer multiple of the
domain length nx * dx contributed by the periodic wrap. -/
theorem spec_advance_zero_field (s : t_species) (f : List ℚ)
    (hf : ∀ y ∈ f, y = 0) (hdx : s.dx ≠ 0) :
    (∀ n : ℕ, (advance_iter s f n).part.map t_part.vx = s.part.map t_part.vx) ∧
    (∀ p : t_part, ∃ k : ℤ,
      (((advance_part s.m_q s.dx s.dt s.nx f p).ix : ℚ) +
          (advance_part s.m_q s.dx s.dt s.nx f p).x) * s.dx =
        ((p.ix : ℚ) + p.x) * s.dx + p.vx * s.dt + (k : ℚ) * ((s.nx : ℚ) * s.dx)) := by
  constructor
  · intro n
    induction n with
    | zero => rfl
    | succ n ih =>
      have hmap : (advance_iter s f (n + 1)).part =
          (advance_iter s f n).part.map
            (advance_part (advance_iter s f n).m_q (advance_iter s f n).dx
              (advance_iter s f n).dt (advance_iter s f n).nx f) := rfl
      rw [hmap, List.map_map]
      have hfun : (t_part.vx ∘ advance_part (advance_iter s f n).m_q (advance_iter s f n).dx
          (advance_iter s f n).dt (advance_iter s f n).nx f) = t_part.vx := by
        funext p
        exact adv_v_zero_field _ _ _ f hf p
      rw [hfun, ih]
  · intro p
    refine ⟨-((p.ix + ⌊adv_xt s.m_q s.dx s.dt s.nx f p⌋) / (s.nx : ℤ)), ?_⟩
    have hx : (advance_part s.m_q s.dx s.dt s.nx f p).x =
        adv_xt s.m_q s.dx s.dt s.nx f p - ((⌊adv_xt s.m_q s.dx s.dt s.nx f p⌋ : ℤ) : ℚ) := rfl
    have hint : ((advance_part s.m_q s.dx s.dt s.nx f p).ix : ℚ) =
        ((p.ix : ℚ) + ((⌊adv_xt s.m_q s.dx s.dt s.nx f p⌋ : ℤ) : ℚ)) -
          (s.nx : ℚ) * (((p.ix + ⌊adv_xt s.m_q s.dx s.dt s.nx f p⌋) / (s.nx : ℤ) : ℤ) : ℚ) := by
      show (((p.ix + ⌊adv_xt s.m_q s.dx s.dt s.nx f p⌋) % (s.nx : ℤ) : ℤ) : ℚ) = _
      rw [Int.emod_def]
      push_cast
      ring
    have hxt : adv_xt s.m_q s.dx s.dt s.nx f p = p.x + p.vx * s.dt / s.dx := by
      rw [adv_xt, adv_v_zero_field _ _ _ f hf]
    rw [hx, hint, hxt]
    field_simp
    ring

/-- C3 witness: velocity preservation under the all-zero field evaluated on
the concrete species SZ after two advance calls. -/
theorem spec_advance_zero_field_w :
    (advance_iter SZ FZ 2).part.map t_part.vx = SZ.part.map t_part.vx :=
  (spec_advance_zero_field SZ FZ
    (by
      intro y hy
      simp only [FZ, List.mem_cons, List.not_mem_nil, or_false] at hy
      rcases hy with h | h <;> exact h)
    (by norm_num [SZ])).1 2

/-- A particle that misses either bin range contributes nothing to the
phase-space histogram buffer. -/
theorem deposit_pha_one_skip (dx q : ℚ) (c0 c1 n0 n1 : ℕ) (r0 r1 : ℚ × ℚ)
    (buf : List ℚ) (p : t_part)
    (hout : pha_bin n0 r0.1 r0.2 (pha_value dx c0 p) = none ∨
            pha_bin n1 r1.1 r1.2 (pha_value dx c1 p) = none) :
    deposit_pha_one dx q c0 c1 n0 n1 r0 r1 buf p = buf := by
  unfold deposit_pha_one
  rcases hout with h | h
  · rw [h]
  · rw [h]
    split <;> simp_all

/-- C8: the phase-space deposition leaves the species completely unchanged
(the state it returns is the input species, particle buffer, counters,
energy and iteration included), and a particle whose selected position or
velocity falls outside the bin ranges contributes nothing to the histogram —
it is silently skipped, never an error. -/
theorem spec_deposit_pha_frame (s : t_species) (rep n0 n1 : ℕ) (r0 r1 : ℚ × ℚ)
    (buf : List ℚ) (p : t_part) (l1 l2 : List t_part)
    (hout : pha_bin n0 r0.1 r0.2 (pha_value s.dx ((rep - PHA) % 16) p) = none ∨
            pha_bin n1 r1.1 r1.2 (pha_value s.dx ((rep - PHA) / 16 % 16) p) = none) :
    (spec_deposit_pha s rep n0 n1 r0 r1 buf).1 = s ∧
    (spec_deposit_pha { s with part := l1 ++ p :: l2 } rep n0 n1 r0 r1 buf).2 =
      (spec_deposit_pha { s with part := l1 ++ l2 } rep n0 n1 r0 r1 buf).2 := by
  refine ⟨rfl, ?_⟩
  simp only [spec_deposit_pha]
  rw [List.foldl_append, List.foldl_append, List.foldl_cons,
    deposit_pha_one_skip s.dx s.q ((rep - PHA) % 16) ((rep - PHA) / 16 % 16) n0 n1 r0 r1 _ p hout]

/-- C8 witness: the frame and skip properties evaluated on the concrete
species S8 with the out-of-range particle p8 inserted in front of the
in-range particle q8, for the combined position-velocity report tag. -/
theorem spec_deposit_pha_frame_w :
    (spec_deposit_pha S8 (PHASESPACE X1 V1) 2 2 ((0 : ℚ), (1 : ℚ)) ((0 : ℚ), (1 : ℚ))
        [0, 0, 0, 0]).1 = S8 ∧
    (spec_deposit_pha { S8 with part := [] ++ p8 :: [q8] } (PHASESPACE X1 V1) 2 2
        ((0 : ℚ), (1 : ℚ)) ((0 : ℚ), (1 : ℚ)) [0, 0, 0, 0]).2 =
      (spec_deposit_pha { S8 with part := [] ++ [q8] } (PHASESPACE X1 V1) 2 2
        ((0 : ℚ), (1 : ℚ)) ((0 : ℚ), (1 : ℚ)) [0, 0, 0, 0]).2 :=
  spec_deposit_pha_frame S8 (PHASESPACE X1 V1) 2 2 ((0 : ℚ), (1 : ℚ)) ((0 : ℚ), (1 : ℚ))
    [0, 0, 0, 0] p8 [] [q8]
    (Or.inr (by norm_num [pha_bin, pha_value, p8, S8, PHASESPACE, PHA, X1, V1]))
